import Mathlib

/-!
Verification of the noun-phrase extraction module (`text/np_extractors.py`,
`text/exceptions.py`) of the TextBlob repository.

The shallow embedding below translates the pure core of the module:

* the CFG tables of `ConllExtractor` / `FastNPExtractor` (identical literals),
* the greedy adjacent-pair merge loop of `FastNPExtractor.extract`
  (lines 175-190) and of `is_match` (lines 217-235),
* the utility functions `normalize_tags`, `tree2str`, `filter_insignificant`,
* the retention condition of `ConllExtractor.extract` over a parsed subtree,
* the error translation done by `ChunkParser.train` / `FastNPExtractor.train`
  and the `MissingCorpusException` of `exceptions.py`,
* `BaseNPExtractor.extract`,
* a small explicit heap, to state that `is_match` never mutates its argument.

Python lists become Lean `List`s, the CFG dicts become association lists,
`dict.get` becomes `List.lookup`, and raised exceptions become `Except` values.
-/

set_option maxHeartbeats 1000000

namespace TextBlob

/-- A tagged token: a `(surface text, POS tag)` tuple, exactly the `(word, tag)`
pairs that flow through `np_extractors.py`. -/
abbrev Tok := String × String

/-- The CFG dict, written with the same five key/value pairs in
`ConllExtractor.CFG` (lines 66-72) and `FastNPExtractor.CFG` (lines 112-118). -/
def CFG : List ((String × String) × String) :=
  [(("NNP", "NNP"), "NNP"),
   (("NN", "NN"), "NNI"),
   (("NNI", "NN"), "NNI"),
   (("JJ", "JJ"), "JJ"),
   (("JJ", "NN"), "NNI")]

/-- The eligibility test applied to an adjacent pair:
`value = cfg.get(key, default)` followed by `if value:`.
`FastNPExtractor.extract` uses default `''` and `is_match` uses default `None`;
under Python truthiness both guards pass exactly when the lookup finds the key
and its value is a nonempty string, so one definition models both. -/
def mergeValue (cfg : List ((String × String) × String)) (t1 t2 : Tok) :
    Option String :=
  match List.lookup (t1.2, t2.2) cfg with
  | some v => if v = "" then none else some v
  | none => none

/-- The merged text built by `FastNPExtractor.extract`, line 187:
`match = '%s %s' % (t1[0], t2[0])`. -/
def extractCombine (a b : String) : String := a ++ " " ++ b

/-- The merged text built by `is_match`, line 230:
`match = '{0} {0}'.format(first[0], second[0])` — the format string uses
argument 0 twice, so the first token's text is duplicated and the second
token's text is dropped. -/
def matchCombine (a : String) (_b : String) : String := a ++ " " ++ a

/-- One full pass of the inner `for x in range(0, len(tags) - 1)` scan:
find the leftmost adjacent pair whose tag pair looks up to a truthy CFG value,
pop both elements and insert `(combine text1 text2, value)` at that position
(`tags.pop(x); tags.pop(x); tags.insert(x, (match, pos)); break`), or report
`none` when the full scan triggers no merge (so the `while merge:` loop exits). -/
def mergeOnce (combine : String → String → String)
    (cfg : List ((String × String) × String)) : List Tok → Option (List Tok)
  | t1 :: t2 :: rest =>
    match mergeValue cfg t1 t2 with
    | some v => some ((combine t1.1 t2.1, v) :: rest)
    | none =>
      match mergeOnce combine cfg (t2 :: rest) with
      | some l => some (t1 :: l)
      | none => none
  | _ => none

/-- The `while merge:` loop, driven by a fuel argument.  Each iteration that
merges consumes one unit of fuel; `mergeLoop` below supplies fuel equal to the
initial length, which is proved sufficient (`mergeLoop_fixpoint`): the loop of
the source runs until a full scan finds no merge, and so does this one. -/
def mergeLoopAux (combine : String → String → String)
    (cfg : List ((String × String) × String)) : Nat → List Tok → List Tok
  | 0, l => l
  | fuel + 1, l =>
    match mergeOnce combine cfg l with
    | some l2 => mergeLoopAux combine cfg fuel l2
    | none => l

/-- The merge loop of lines 175-190 / 219-233 run to convergence. -/
def mergeLoop (combine : String → String → String)
    (cfg : List ((String × String) × String)) (l : List Tok) : List Tok :=
  mergeLoopAux combine cfg l.length l

/-- Number of merge iterations the loop performs before the scan that finds
no mergeable pair, with the same fuel discipline as `mergeLoopAux`. -/
def loopStepsAux (combine : String → String → String)
    (cfg : List ((String × String) × String)) : Nat → List Tok → Nat
  | 0, _ => 0
  | fuel + 1, l =>
    match mergeOnce combine cfg l with
    | some l2 => loopStepsAux combine cfg fuel l2 + 1
    | none => 0

/-- Total number of merge steps performed on input `l`. -/
def loopSteps (combine : String → String → String)
    (cfg : List ((String × String) × String)) (l : List Tok) : Nat :=
  loopStepsAux combine cfg l.length l

/-- The membership check `t[1] in ['NNP', 'NNI']` / `t[1] in ('NNP', 'NNI')`
used by both final-selection policies. -/
def nounTag (t : String) : Bool := t == "NNP" || t == "NNI"

/-- Collection mode of `FastNPExtractor.extract`, lines 175-193: run the merge
loop over the normalized tagged tokens, then
`matches = [t[0] for t in tags if t[1] in ['NNP', 'NNI']]`. -/
def fastExtract (tags : List Tok) : List String :=
  ((mergeLoop extractCombine CFG tags).filter (fun t => nounTag t.2)).map
    (fun t => t.1)

/-- Embedding of `is_match(tagged_phrase, cfg)`, lines 217-235: copy the list, run the merge
loop with the `'{0} {0}'` text builder, then
`any([t[1] in ('NNP', 'NNI') for t in copy])`. -/
def is_match (tagged_phrase : List Tok)
    (cfg : List ((String × String) × String)) : Bool :=
  (mergeLoop matchCombine cfg tagged_phrase).any (fun t => nounTag t.2)

/-- Python's `str.endswith`, modelled over the character list of the string
(true exactly when the suffix's characters are a suffix of the string's). -/
def strEndsWith (s suffix : String) : Bool := suffix.data.isSuffixOf s.data

/-- Python's negative-stop slicing `s[:-n]`: keep all but the last `n`
characters. -/
def strDropRight (s : String) (n : Nat) : String :=
  ⟨s.data.take (s.data.length - n)⟩

/-- Tag canonicalization of one tag, as in the bodies of the module-level
`normalize_tags` (lines 198-214) and the identical
`FastNPExtractor.normalize_tags` (lines 153-167):
`NP-TL`/`NP` become `NNP`; else a `-TL` suffix (`tag[:-3]`) is stripped; else
a trailing `S` (`tag[:-1]`) is stripped; else the tag is unchanged. -/
def normTag (tag : String) : String :=
  if tag = "NP-TL" ∨ tag = "NP" then "NNP"
  else if strEndsWith tag "-TL" then strDropRight tag 3
  else if strEndsWith tag "S" then strDropRight tag 1
  else tag

/-- Embedding of `normalize_tags(chunk)`: the accumulating loop with `continue`s appends
exactly one pair per input pair, i.e. a map of `normTag` over the tags. -/
def normalize_tags (chunk : List Tok) : List Tok :=
  chunk.map (fun wt => (wt.1, normTag wt.2))

/-- The default `tag_suffixes` of `filter_insignificant`, which is also the
literal of `ConllExtractor.INSIGNIFICANT_SUFFIXES` (line 75). -/
def INSIGNIFICANT_SUFFIXES : List String := ["DT", "CC", "PRP$", "PRP"]

/-- The inner suffix loop of `filter_insignificant`: `ok` stays `True` exactly
when the tag ends with none of the suffixes. -/
def significant (tag_suffixes : List String) (tag : String) : Bool :=
  tag_suffixes.all (fun suffix => !(strEndsWith tag suffix))

/-- Embedding of `filter_insignificant(chunk, tag_suffixes)`, lines 252-262.  The Python
default argument is `INSIGNIFICANT_SUFFIXES`; callers here pass it explicitly. -/
def filter_insignificant (chunk : List Tok) (tag_suffixes : List String) :
    List Tok :=
  chunk.filter (fun wt => significant tag_suffixes wt.2)

/-- Embedding of `tree2str(tree, concat=' ')`, lines 242-249: join the surface texts. -/
def tree2str (tree : List Tok) (concat : String) : String :=
  String.intercalate concat (tree.map (fun wt => wt.1))

/-- A top-level subtree of the chunk parse, reduced to what
`ConllExtractor.extract` reads from it: its `node` label and its leaf
`(word, tag)` pairs. -/
structure Subtree where
  node : String
  leaves : List Tok

/-- The retention condition of the list comprehension in
`ConllExtractor.extract`, lines 88-92: the element is a tree whose node is
`'NP'`, `len(filter_insignificant(each)) >= 1` (with the default suffixes),
and `is_match(each, cfg=self.CFG)` — note both tests run on the RAW leaves. -/
def conllKeep (each : Subtree) : Bool :=
  each.node == "NP" &&
    decide (1 ≤ (filter_insignificant each.leaves INSIGNIFICANT_SUFFIXES).length) &&
    is_match each.leaves CFG

/-- Modelled from the spec: the retention condition as section 4.4 step 4
words it — filter insignificant tokens, normalize the survivors, require at
least one survivor and require the membership test over those surviving,
normalized tokens.  Declared only to be compared against `conllKeep`. -/
def conllKeepSpec (each : Subtree) : Bool :=
  let surv := normalize_tags (filter_insignificant each.leaves INSIGNIFICANT_SUFFIXES)
  each.node == "NP" && decide (1 ≤ surv.length) && is_match surv CFG

/-- Per-sentence phrase list of `ConllExtractor.extract`, lines 88-93: keep the
subtrees passing `conllKeep`, filter and normalize each, then `tree2str`. -/
def conllPhrases (parsed : List Subtree) : List String :=
  ((parsed.filter conllKeep).map
      (fun each => normalize_tags
        (filter_insignificant each.leaves INSIGNIFICANT_SUFFIXES))).map
    (fun phrase => tree2str phrase " ")

/-- A token whose tag already passes the membership check. -/
def goodTok (t : Tok) : Bool := nounTag t.2

/-- An adjacent tag pair that produces `NNI` without needing any prior merge:
`("NN", "NN")` or `("JJ", "NN")`. -/
def goodPair (t1 t2 : Tok) : Bool :=
  (t1.2 == "NN" && t2.2 == "NN") || (t1.2 == "JJ" && t2.2 == "NN")

/-- Static characterization of the merge-engine membership test: the sequence
holds an `NNP`/`NNI`-tagged token, or two adjacent tokens tagged
`("NN", "NN")` or `("JJ", "NN")`.  Proved below (`is_match_iff_hasGood`) to
coincide with `is_match` at the concrete CFG. -/
def hasGood : List Tok → Bool
  | [] => false
  | [t] => goodTok t
  | t1 :: t2 :: rest => goodTok t1 || goodPair t1 t2 || hasGood (t2 :: rest)

/-- A single apostrophe character, used to build the message below. -/
def apos : String := String.singleton (Char.ofNat 39)

/-- The fixed remediation message carried by `MissingCorpusException` by
default (its `__init__` has `message=MISSING_CORPUS_MESSAGE`). -/
def MISSING_CORPUS_MESSAGE : String :=
  "Looks like you are missing some required data for this feature.\n\nTo download the necessary data, simply run\n\n    curl https://raw.github.com/sloria/TextBlob/master/download_corpora.py | python\n\nIf this doesn" ++
    apos ++ "t fix the problem, file an issue at https://github.com/sloria/TextBlob/issues.\n"

/-- The exceptions that the embedded code can raise. `missingCorpusException`
carries the message its constructor stores. -/
inductive PyError where
  | lookupError : PyError
  | missingCorpusException (message : String) : PyError
  | notImplementedError : PyError
deriving DecidableEq

/-- Embedding of `ChunkParser.train`, lines 35-44: the conll2000 corpus read is external, so
it is passed in as an `Except` value (`Except.error .lookupError` when nltk
raises `LookupError`).  The `except LookupError:` clause translates exactly
that failure into `MissingCorpusException()` with the default message; any
other outcome passes through (success trains the taggers). -/
def ChunkParser.train {α : Type} (corpusFetch : Except PyError α) :
    Except PyError α :=
  match corpusFetch with
  | .ok train_data => .ok train_data
  | .error .lookupError => .error (.missingCorpusException MISSING_CORPUS_MESSAGE)
  | .error e => .error e

/-- Embedding of `FastNPExtractor.train`, lines 123-145: same shape — the brown corpus read
is external, `except LookupError: raise MissingCorpusException()`. -/
def FastNPExtractor.train {α : Type} (corpusFetch : Except PyError α) :
    Except PyError α :=
  match corpusFetch with
  | .ok train_data => .ok train_data
  | .error .lookupError => .error (.missingCorpusException MISSING_CORPUS_MESSAGE)
  | .error e => .error e

/-- Embedding of `BaseNPExtractor.extract`, line 27: `raise(NotImplementedError, 'must
implement an extract(text) method')`.  Under the Python 2 semantics this
module targets (nltk 2's `Tree.node`, old-style `super` calls), raising a
tuple uses its first element, recursively, as the exception to raise, so every
call raises a bare `NotImplementedError`. -/
def BaseNPExtractor.extract (_text : String) : Except PyError (List String) :=
  .error .notImplementedError

/-! ### An explicit heap of list objects, for the no-mutation claim about
`is_match`.  References are indices into the heap; `copy = list(tagged_phrase)`
allocates a fresh cell. -/

/-- The heap: a store of Python list objects addressed by index. -/
abbrev Heap := List (List Tok)

/-- Dereference: reading a dangling reference yields the empty list (never
exercised by the embedded code paths). -/
def heapRead (h : Heap) (r : Nat) : List Tok := h.getD r []

/-- In-place update of the list object behind reference `r`. -/
def heapWrite (h : Heap) (r : Nat) (l : List Tok) : Heap := h.set r l

/-- Allocation `list(x)`: allocate a fresh list object with the given contents and return
the updated heap together with the new reference. -/
def heapAlloc (h : Heap) (l : List Tok) : Heap × Nat := (h ++ [l], h.length)

/-- The `while merge:` loop of `is_match` as it acts on the heap: every
`pop`/`insert` of an iteration rewrites only the list behind `c` (the local
`copy`), which each step replaces by its once-merged form. -/
def isMatchLoopH (cfg : List ((String × String) × String)) :
    Nat → Heap → Nat → Heap
  | 0, h, _ => h
  | fuel + 1, h, c =>
    match mergeOnce matchCombine cfg (heapRead h c) with
    | some l => isMatchLoopH cfg fuel (heapWrite h c l) c
    | none => h

/-- Heap-level `is_match`: `copy = list(tagged_phrase)` allocates, the loop
mutates only `copy`, and the result is the `any(...)` over the converged copy. -/
def is_matchH (cfg : List ((String × String) × String)) (h : Heap)
    (tagged_phrase : Nat) : Heap × Bool :=
  let hc := heapAlloc h (heapRead h tagged_phrase)
  let h2 := isMatchLoopH cfg (heapRead hc.1 hc.2).length hc.1 hc.2
  (h2, (heapRead h2 hc.2).any (fun t => nounTag t.2))

/-! ### Lemmas about one merge pass -/

/-- A successful merge pass shortens the sequence by exactly one element. -/
theorem mergeOnce_length (combine : String → String → String)
    (cfg : List ((String × String) × String)) :
    ∀ l l2 : List Tok, mergeOnce combine cfg l = some l2 →
      l.length = l2.length + 1
  | [], _, h => by simp [mergeOnce] at h
  | [t1], _, h => by simp [mergeOnce] at h
  | t1 :: t2 :: rest, l2, h => by
    unfold mergeOnce at h
    cases hv : mergeValue cfg t1 t2 with
    | some v =>
      rw [hv] at h
      cases h
      simp
    | none =>
      rw [hv] at h
      cases hr : mergeOnce combine cfg (t2 :: rest) with
      | some l3 =>
        rw [hr] at h
        cases h
        have ih := mergeOnce_length combine cfg (t2 :: rest) l3 hr
        simp at ih ⊢
        omega
      | none => rw [hr] at h; cases h

/-- A successful merge pass never produces the empty sequence. -/
theorem mergeOnce_ne_nil (combine : String → String → String)
    (cfg : List ((String × String) × String)) :
    ∀ l l2 : List Tok, mergeOnce combine cfg l = some l2 → l2 ≠ []
  | [], _, h => by simp [mergeOnce] at h
  | [t1], _, h => by simp [mergeOnce] at h
  | t1 :: t2 :: rest, l2, h => by
    unfold mergeOnce at h
    cases hv : mergeValue cfg t1 t2 with
    | some v => rw [hv] at h; cases h; simp
    | none =>
      rw [hv] at h
      cases hr : mergeOnce combine cfg (t2 :: rest) with
      | some l3 => rw [hr] at h; cases h; simp
      | none => rw [hr] at h; cases h

/-- The pass reports `none` exactly when no adjacent pair is mergeable: the
`while` loop exits precisely after a full scan without a CFG hit. -/
theorem mergeOnce_eq_none_iff (combine : String → String → String)
    (cfg : List ((String × String) × String)) :
    ∀ l : List Tok, mergeOnce combine cfg l = none ↔
      ∀ j, (hj : j + 1 < l.length) →
        mergeValue cfg (l.get ⟨j, Nat.lt_of_succ_lt hj⟩) (l.get ⟨j + 1, hj⟩) = none
  | [] => by
    constructor
    · intro _ j hj
      simp at hj
    · intro _
      rfl
  | [t1] => by
    constructor
    · intro _ j hj
      simp at hj
    · intro _
      rfl
  | t1 :: t2 :: rest => by
    constructor
    · intro h j hj
      unfold mergeOnce at h
      cases hv : mergeValue cfg t1 t2 with
      | some v => rw [hv] at h; cases h
      | none =>
        rw [hv] at h
        cases hr : mergeOnce combine cfg (t2 :: rest) with
        | some l3 => rw [hr] at h; cases h
        | none =>
          cases j with
          | zero => simpa using hv
          | succ j2 =>
            have ih := (mergeOnce_eq_none_iff combine cfg (t2 :: rest)).mp hr
            have hj2 : j2 + 1 < (t2 :: rest).length := by
              simp at hj ⊢
              omega
            simpa using ih j2 hj2
    · intro h
      have hv : mergeValue cfg t1 t2 = none := by
        have := h 0 (by simp)
        simpa using this
      have hr : mergeOnce combine cfg (t2 :: rest) = none := by
        apply (mergeOnce_eq_none_iff combine cfg (t2 :: rest)).mpr
        intro j hj
        have hj2 : j + 1 + 1 < (t1 :: t2 :: rest).length := by
          simp at hj ⊢
          omega
        simpa using h (j + 1) hj2
      unfold mergeOnce
      rw [hv, hr]

/-- The pass merges the leftmost eligible pair: if position `i` is mergeable
and every position left of it is not, the result pops elements `i` and `i+1`
and inserts the combined element at `i`. -/
theorem mergeOnce_leftmost (combine : String → String → String)
    (cfg : List ((String × String) × String)) :
    ∀ (l : List Tok) (i : Nat) (hi : i + 1 < l.length) (v : String),
      mergeValue cfg (l.get ⟨i, Nat.lt_of_succ_lt hi⟩) (l.get ⟨i + 1, hi⟩) = some v →
      (∀ j, (hj : j + 1 < l.length) → j < i →
        mergeValue cfg (l.get ⟨j, Nat.lt_of_succ_lt hj⟩) (l.get ⟨j + 1, hj⟩) = none) →
      mergeOnce combine cfg l =
        some (l.take i ++
          (combine (l.get ⟨i, Nat.lt_of_succ_lt hi⟩).1 (l.get ⟨i + 1, hi⟩).1, v) ::
            l.drop (i + 2))
  | [], i, hi, v, hv, hmin => by simp at hi
  | [t1], i, hi, v, hv, hmin => by simp at hi
  | t1 :: t2 :: rest, 0, hi, v, hv, hmin => by
    simp at hv
    unfold mergeOnce
    rw [hv]
    simp
  | t1 :: t2 :: rest, i + 1, hi, v, hv, hmin => by
    have h0 : mergeValue cfg t1 t2 = none := by
      have := hmin 0 (by simp) (by omega)
      simpa using this
    have hi2 : i + 1 < (t2 :: rest).length := by
      simp at hi ⊢
      omega
    have hv2 : mergeValue cfg ((t2 :: rest).get ⟨i, Nat.lt_of_succ_lt hi2⟩)
        ((t2 :: rest).get ⟨i + 1, hi2⟩) = some v := by
      simpa using hv
    have hmin2 : ∀ j, (hj : j + 1 < (t2 :: rest).length) → j < i →
        mergeValue cfg ((t2 :: rest).get ⟨j, Nat.lt_of_succ_lt hj⟩)
          ((t2 :: rest).get ⟨j + 1, hj⟩) = none := by
      intro j hj hji
      have hj2 : j + 1 + 1 < (t1 :: t2 :: rest).length := by
        simp at hj ⊢
        omega
      have := hmin (j + 1) hj2 (by omega)
      simpa using this
    have ih := mergeOnce_leftmost combine cfg (t2 :: rest) i hi2 v hv2 hmin2
    unfold mergeOnce
    rw [h0, ih]
    simp

/-! ### Lemmas about the merge loop -/

/-- Unfolding equation of `mergeLoopAux` for one unit of fuel. -/
theorem mergeLoopAux_succ (combine : String → String → String)
    (cfg : List ((String × String) × String)) (fuel : Nat) (l : List Tok) :
    mergeLoopAux combine cfg (fuel + 1) l =
      match mergeOnce combine cfg l with
      | some l2 => mergeLoopAux combine cfg fuel l2
      | none => l := rfl

/-- Unfolding equation of `loopStepsAux` for one unit of fuel. -/
theorem loopStepsAux_succ (combine : String → String → String)
    (cfg : List ((String × String) × String)) (fuel : Nat) (l : List Tok) :
    loopStepsAux combine cfg (fuel + 1) l =
      match mergeOnce combine cfg l with
      | some l2 => loopStepsAux combine cfg fuel l2 + 1
      | none => 0 := rfl

/-- With fuel at least the sequence length the loop reaches a fixpoint: the
final scan finds no mergeable pair. -/
theorem mergeLoopAux_fixpoint (combine : String → String → String)
    (cfg : List ((String × String) × String)) :
    ∀ (fuel : Nat) (l : List Tok), l.length ≤ fuel →
      mergeOnce combine cfg (mergeLoopAux combine cfg fuel l) = none
  | 0, l, hle => by
    have : l = [] := by
      cases l with
      | nil => rfl
      | cons a tl => simp at hle
    subst this
    rfl
  | fuel + 1, l, hle => by
    unfold mergeLoopAux
    cases h : mergeOnce combine cfg l with
    | some l2 =>
      have hlen := mergeOnce_length combine cfg l l2 h
      exact mergeLoopAux_fixpoint combine cfg fuel l2 (by omega)
    | none => exact h

/-- The converged sequence admits no further merge (the loop really stops). -/
theorem mergeLoop_fixpoint (combine : String → String → String)
    (cfg : List ((String × String) × String)) (l : List Tok) :
    mergeOnce combine cfg (mergeLoop combine cfg l) = none :=
  mergeLoopAux_fixpoint combine cfg l.length l (Nat.le_refl _)

/-- After a merge the loop simply continues on the shorter sequence, scanning
again from the left. -/
theorem mergeLoop_merge (combine : String → String → String)
    (cfg : List ((String × String) × String)) (l l2 : List Tok)
    (h : mergeOnce combine cfg l = some l2) :
    mergeLoop combine cfg l = mergeLoop combine cfg l2 := by
  have hlen := mergeOnce_length combine cfg l l2 h
  unfold mergeLoop
  rw [hlen, mergeLoopAux_succ, h]

/-- If the first scan already finds no mergeable pair the loop returns its
input unchanged. -/
theorem mergeLoop_of_none (combine : String → String → String)
    (cfg : List ((String × String) × String)) (l : List Tok)
    (h : mergeOnce combine cfg l = none) :
    mergeLoop combine cfg l = l := by
  unfold mergeLoop
  cases hl : l.length with
  | zero => rfl
  | succ n =>
    unfold mergeLoopAux
    rw [h]

/-- Merge-step count: at most `length - 1` merges happen, whatever the fuel. -/
theorem loopStepsAux_le (combine : String → String → String)
    (cfg : List ((String × String) × String)) :
    ∀ (fuel : Nat) (l : List Tok),
      loopStepsAux combine cfg fuel l ≤ l.length - 1
  | 0, l => by simp [loopStepsAux]
  | fuel + 1, l => by
    rw [loopStepsAux_succ]
    cases h : mergeOnce combine cfg l with
    | some l2 =>
      have hlen := mergeOnce_length combine cfg l l2 h
      have hne := mergeOnce_ne_nil combine cfg l l2 h
      have hpos : 1 ≤ l2.length := by
        cases l2 with
        | nil => exact absurd rfl hne
        | cons a tl => simp
      have ih := loopStepsAux_le combine cfg fuel l2
      show loopStepsAux combine cfg fuel l2 + 1 ≤ l.length - 1
      omega
    | none => simp

/-- A nonempty sequence stays nonempty through the loop. -/
theorem mergeLoopAux_ne_nil (combine : String → String → String)
    (cfg : List ((String × String) × String)) :
    ∀ (fuel : Nat) (l : List Tok), l ≠ [] →
      mergeLoopAux combine cfg fuel l ≠ []
  | 0, l, hne => hne
  | fuel + 1, l, hne => by
    unfold mergeLoopAux
    cases h : mergeOnce combine cfg l with
    | some l2 =>
      exact mergeLoopAux_ne_nil combine cfg fuel l2
        (mergeOnce_ne_nil combine cfg l l2 h)
    | none => exact hne

/-! ### The concrete CFG table -/

/-- Every value of the CFG dict is a nonempty string, so at this table the
Python truthiness guard `if value:` coincides with key membership. -/
theorem CFG_values_ne_empty (k : String × String) (v : String)
    (h : List.lookup k CFG = some v) : v ≠ "" := by
  simp only [CFG, List.lookup] at h
  repeat' split at h
  any_goals exact Option.noConfusion h
  all_goals
    injection h with h2
    subst h2
    decide

/-- At the concrete CFG the eligibility test is exactly the dict lookup. -/
theorem mergeValue_CFG_eq_lookup (t1 t2 : Tok) :
    mergeValue CFG t1 t2 = List.lookup (t1.2, t2.2) CFG := by
  unfold mergeValue
  cases h : List.lookup (t1.2, t2.2) CFG with
  | none => rfl
  | some v => simp [CFG_values_ne_empty _ _ h]

/-! ### Heap lemmas for the no-mutation property of `is_match` -/

/-- Writing behind one reference does not change what another one sees. -/
theorem heapRead_heapWrite_ne (h : Heap) (c r : Nat) (l : List Tok)
    (hne : r ≠ c) : heapRead (heapWrite h c l) r = heapRead h r := by
  unfold heapRead heapWrite
  rw [List.getD_eq_getElem?_getD, List.getD_eq_getElem?_getD,
    List.getElem?_set_ne (fun he => hne he.symm)]

/-- Reading back a write through a live reference yields the written list. -/
theorem heapRead_heapWrite_eq (h : Heap) (c : Nat) (l : List Tok)
    (hc : c < h.length) : heapRead (heapWrite h c l) c = l := by
  unfold heapRead heapWrite
  rw [List.getD_eq_getElem?_getD, List.getElem?_set_self hc]
  rfl

/-- Reading past the end of the heap yields the default empty list. -/
theorem heapRead_out (h : Heap) (r : Nat) (hr : h.length ≤ r) :
    heapRead h r = [] := by
  unfold heapRead
  rw [List.getD_eq_getElem?_getD, List.getElem?_eq_none hr]
  rfl

/-- Reading the freshly allocated reference yields the allocated contents. -/
theorem heapRead_heapAlloc_new (h : Heap) (l : List Tok) :
    heapRead (h ++ [l]) h.length = l := by
  unfold heapRead
  rw [List.getD_eq_getElem?_getD, List.getElem?_concat_length]
  rfl

/-- Allocation does not change what live references see. -/
theorem heapRead_heapAlloc_old (h : Heap) (l : List Tok) (r : Nat)
    (hr : r < h.length) : heapRead (h ++ [l]) r = heapRead h r := by
  unfold heapRead
  rw [List.getD_eq_getElem?_getD, List.getD_eq_getElem?_getD,
    List.getElem?_append_left hr]

/-- The loop of `is_match` only ever writes behind its own `copy` reference. -/
theorem isMatchLoopH_frame (cfg : List ((String × String) × String)) :
    ∀ (fuel : Nat) (h : Heap) (c r : Nat), r ≠ c →
      heapRead (isMatchLoopH cfg fuel h c) r = heapRead h r
  | 0, h, c, r, hne => rfl
  | fuel + 1, h, c, r, hne => by
    show heapRead
      (match mergeOnce matchCombine cfg (heapRead h c) with
        | some l => isMatchLoopH cfg fuel (heapWrite h c l) c
        | none => h) r = heapRead h r
    cases hm : mergeOnce matchCombine cfg (heapRead h c) with
    | some l =>
      rw [isMatchLoopH_frame cfg fuel (heapWrite h c l) c r hne,
        heapRead_heapWrite_ne h c r l hne]
    | none => rfl

/-- Through its own reference, the loop of `is_match` computes exactly the
pure merge loop of the list it was given. -/
theorem isMatchLoopH_read (cfg : List ((String × String) × String)) :
    ∀ (fuel : Nat) (h : Heap) (c : Nat), c < h.length →
      heapRead (isMatchLoopH cfg fuel h c) c =
        mergeLoopAux matchCombine cfg fuel (heapRead h c)
  | 0, h, c, hc => rfl
  | fuel + 1, h, c, hc => by
    show heapRead
      (match mergeOnce matchCombine cfg (heapRead h c) with
        | some l => isMatchLoopH cfg fuel (heapWrite h c l) c
        | none => h) c =
      mergeLoopAux matchCombine cfg (fuel + 1) (heapRead h c)
    rw [mergeLoopAux_succ]
    cases hm : mergeOnce matchCombine cfg (heapRead h c) with
    | some l =>
      have hc2 : c < (heapWrite h c l).length := by
        unfold heapWrite
        simpa using hc
      rw [isMatchLoopH_read cfg fuel (heapWrite h c l) c hc2,
        heapRead_heapWrite_eq h c l hc]
    | none => rfl

/-! ### A static characterization of the membership test

At the concrete CFG, `is_match` holds exactly when the input already contains
an `NNP`/`NNI`-tagged token or an adjacent `("NN", "NN")` / `("JJ", "NN")`
pair (`hasGood`): tokens with any other tag never take part in a merge, `NNP`
and `NNI` elements persist through every merge that touches them, and a good
pair either survives intact or turns into an `NNI` element. -/

/-- Dissecting a successful lookup in the concrete CFG into its five rules. -/
theorem lookup_CFG_cases (k : String × String) (v : String)
    (h : List.lookup k CFG = some v) :
    (k = ("NNP", "NNP") ∧ v = "NNP") ∨ (k = ("NN", "NN") ∧ v = "NNI") ∨
    (k = ("NNI", "NN") ∧ v = "NNI") ∨ (k = ("JJ", "JJ") ∧ v = "JJ") ∨
    (k = ("JJ", "NN") ∧ v = "NNI") := by
  simp only [CFG, List.lookup] at h
  repeat' split at h <;> simp_all

/-- The five merge rules, by tag components. -/
theorem mergeValue_CFG_cases (t1 t2 : Tok) (v : String)
    (h : mergeValue CFG t1 t2 = some v) :
    (t1.2 = "NNP" ∧ t2.2 = "NNP" ∧ v = "NNP") ∨
    (t1.2 = "NN" ∧ t2.2 = "NN" ∧ v = "NNI") ∨
    (t1.2 = "NNI" ∧ t2.2 = "NN" ∧ v = "NNI") ∨
    (t1.2 = "JJ" ∧ t2.2 = "JJ" ∧ v = "JJ") ∨
    (t1.2 = "JJ" ∧ t2.2 = "NN" ∧ v = "NNI") := by
  rw [mergeValue_CFG_eq_lookup] at h
  have hc := lookup_CFG_cases (t1.2, t2.2) v h
  simpa [Prod.ext_iff, and_assoc] using hc

/-- A good pair is exactly an `NNI`-producing CFG hit. -/
theorem goodPair_mergeValue (t1 t2 : Tok) (h : goodPair t1 t2 = true) :
    mergeValue CFG t1 t2 = some "NNI" := by
  rw [mergeValue_CFG_eq_lookup]
  simp only [goodPair, Bool.or_eq_true, Bool.and_eq_true, beq_iff_eq] at h
  rcases h with ⟨h1, h2⟩ | ⟨h1, h2⟩ <;> rw [h1, h2] <;> decide

/-- Unfolding equation of `hasGood` at two or more elements. -/
theorem hasGood_cons2 (t1 t2 : Tok) (rest : List Tok) :
    hasGood (t1 :: t2 :: rest) =
      (goodTok t1 || goodPair t1 t2 || hasGood (t2 :: rest)) := rfl

/-- A good head makes the whole sequence good. -/
theorem hasGood_head (a : Tok) (l : List Tok) (h : goodTok a = true) :
    hasGood (a :: l) = true := by
  cases l with
  | nil => exact h
  | cons b l2 => simp [hasGood_cons2, h]

/-- A good tail makes the whole sequence good. -/
theorem hasGood_tail (a : Tok) (l : List Tok) (h : hasGood l = true) :
    hasGood (a :: l) = true := by
  cases l with
  | nil => simp [hasGood] at h
  | cons b l2 => simp [hasGood_cons2, h]

/-- A sequence with a good token somewhere is good. -/
theorem any_goodTok_hasGood :
    ∀ l : List Tok, l.any goodTok = true → hasGood l = true
  | [], h => by simp at h
  | [t], h => by simpa using h
  | t1 :: t2 :: rest, h => by
    rw [List.any_cons, Bool.or_eq_true] at h
    rcases h with h1 | h2
    · exact hasGood_head _ _ h1
    · exact hasGood_tail _ _ (any_goodTok_hasGood (t2 :: rest) h2)

/-- An unmergeable two-or-more sequence splits the no-merge fact. -/
theorem mergeOnce_none_parts (combine : String → String → String)
    (cfg : List ((String × String) × String)) (t1 t2 : Tok) (rest : List Tok)
    (h : mergeOnce combine cfg (t1 :: t2 :: rest) = none) :
    mergeValue cfg t1 t2 = none ∧ mergeOnce combine cfg (t2 :: rest) = none := by
  unfold mergeOnce at h
  cases hv : mergeValue cfg t1 t2 with
  | some v => rw [hv] at h; cases h
  | none =>
    rw [hv] at h
    cases hr : mergeOnce combine cfg (t2 :: rest) with
    | some l3 => rw [hr] at h; cases h
    | none => exact ⟨rfl, rfl⟩

/-- One merge step preserves `hasGood`: an `NNP`/`NNI` token either survives
or merges into an `NNP`/`NNI` element, a good pair either survives, merges
into `NNI`, or loses its `NN` member to another `NNI`-producing merge, and a
`(JJ, JJ)` merge keeps any good pair formed with the following token. -/
theorem mergeOnce_preserves_hasGood (combine : String → String → String) :
    ∀ l l2 : List Tok, mergeOnce combine CFG l = some l2 →
      hasGood l = true → hasGood l2 = true
  | [], _, h, _ => by simp [mergeOnce] at h
  | [t1], _, h, _ => by simp [mergeOnce] at h
  | t1 :: t2 :: rest, l2, h, hg => by
    rw [hasGood_cons2, Bool.or_eq_true, Bool.or_eq_true] at hg
    unfold mergeOnce at h
    cases hv : mergeValue CFG t1 t2 with
    | some v =>
      rw [hv] at h
      cases h
      rcases mergeValue_CFG_cases t1 t2 v hv with
        ⟨ha, hb, hc⟩ | ⟨ha, hb, hc⟩ | ⟨ha, hb, hc⟩ | ⟨ha, hb, hc⟩ | ⟨ha, hb, hc⟩
      · exact hasGood_head _ _ (by simp [goodTok, nounTag, hc])
      · exact hasGood_head _ _ (by simp [goodTok, nounTag, hc])
      · exact hasGood_head _ _ (by simp [goodTok, nounTag, hc])
      · -- the (JJ, JJ) → JJ rule
        have htail : hasGood (t2 :: rest) = true := by
          rcases hg with (hg1 | hg1) | hg1
          · simp [goodTok, nounTag, ha] at hg1
          · simp [goodPair, ha, hb] at hg1
          · exact hg1
        cases rest with
        | nil => simp [hasGood, goodTok, nounTag, hb] at htail
        | cons t3 rest2 =>
          rw [hasGood_cons2, Bool.or_eq_true, Bool.or_eq_true] at htail
          rw [hasGood_cons2, hc]
          rcases htail with (ht1 | ht1) | ht1
          · simp [goodTok, nounTag, hb] at ht1
          · simp only [goodPair, Bool.or_eq_true, Bool.and_eq_true,
              beq_iff_eq, hb] at ht1
            rcases ht1 with ⟨ht2, _⟩ | ⟨_, ht3⟩
            · simp at ht2
            · simp [goodPair, ht3]
          · simp [ht1]
      · exact hasGood_head _ _ (by simp [goodTok, nounTag, hc])
    | none =>
      rw [hv] at h
      cases hr : mergeOnce combine CFG (t2 :: rest) with
      | some l3 =>
        rw [hr] at h
        cases h
        rcases hg with (hg1 | hg1) | hg1
        · exact hasGood_head _ _ hg1
        · rw [goodPair_mergeValue t1 t2 hg1] at hv
          cases hv
        · exact hasGood_tail _ _
            (mergeOnce_preserves_hasGood combine (t2 :: rest) l3 hr hg1)
      | none => rw [hr] at h; cases h

/-- One merge step also preserves the absence of a static witness: without an
`NNP`/`NNI` token or a good pair, only the `(JJ, JJ) → JJ` rule can fire, and
it creates neither. -/
theorem mergeOnce_preserves_not_hasGood (combine : String → String → String) :
    ∀ l l2 : List Tok, mergeOnce combine CFG l = some l2 →
      hasGood l = false → hasGood l2 = false
  | [], _, h, _ => by simp [mergeOnce] at h
  | [t1], _, h, _ => by simp [mergeOnce] at h
  | t1 :: t2 :: rest, l2, h, hg => by
    rw [hasGood_cons2, Bool.or_eq_false_iff, Bool.or_eq_false_iff] at hg
    obtain ⟨⟨hg1, hg2⟩, hg3⟩ := hg
    unfold mergeOnce at h
    cases hv : mergeValue CFG t1 t2 with
    | some v =>
      rw [hv] at h
      cases h
      rcases mergeValue_CFG_cases t1 t2 v hv with
        ⟨ha, hb, hc⟩ | ⟨ha, hb, hc⟩ | ⟨ha, hb, hc⟩ | ⟨ha, hb, hc⟩ | ⟨ha, hb, hc⟩
      · simp [goodTok, nounTag, ha] at hg1
      · simp [goodPair, ha, hb] at hg2
      · simp [goodTok, nounTag, ha] at hg1
      · -- the (JJ, JJ) → JJ rule
        cases rest with
        | nil => simp [hasGood, goodTok, nounTag, hc]
        | cons t3 rest2 =>
          rw [hasGood_cons2, Bool.or_eq_false_iff, Bool.or_eq_false_iff] at hg3
          obtain ⟨⟨_, hg5⟩, hg6⟩ := hg3
          rw [hasGood_cons2, Bool.or_eq_false_iff, Bool.or_eq_false_iff]
          refine ⟨⟨by simp [goodTok, nounTag, hc], ?_⟩, hg6⟩
          simp [goodPair, hb] at hg5
          simp [goodPair, hc]
          exact hg5
      · simp [goodPair, ha, hb] at hg2
    | none =>
      rw [hv] at h
      cases hr : mergeOnce combine CFG (t2 :: rest) with
      | some l3 =>
        rw [hr] at h
        cases h
        have ih := mergeOnce_preserves_not_hasGood combine (t2 :: rest) l3 hr hg3
        cases rest with
        | nil => simp [mergeOnce] at hr
        | cons t3 rest2 =>
          unfold mergeOnce at hr
          cases hv2 : mergeValue CFG t2 t3 with
          | some w =>
            rw [hv2] at hr
            cases hr
            rw [hasGood_cons2, Bool.or_eq_false_iff, Bool.or_eq_false_iff]
            refine ⟨⟨hg1, ?_⟩, ih⟩
            have hw : w = "NNP" ∨ w = "NNI" ∨ w = "JJ" := by
              rcases mergeValue_CFG_cases t2 t3 w hv2 with
                ⟨_, _, hc⟩ | ⟨_, _, hc⟩ | ⟨_, _, hc⟩ | ⟨_, _, hc⟩ | ⟨_, _, hc⟩ <;>
                simp [hc]
            rcases hw with hw | hw | hw <;> simp [goodPair, hw]
          | none =>
            rw [hv2] at hr
            cases hr2 : mergeOnce combine CFG (t3 :: rest2) with
            | some l4 =>
              rw [hr2] at hr
              cases hr
              rw [hasGood_cons2, Bool.or_eq_false_iff, Bool.or_eq_false_iff]
              exact ⟨⟨hg1, hg2⟩, ih⟩
            | none => rw [hr2] at hr; cases hr
      | none => rw [hr] at h; cases h

/-- At a merge fixpoint, a good sequence must hold a good token: a surviving
good pair would still be a CFG hit, contradicting the fixpoint. -/
theorem hasGood_fixpoint_any (combine : String → String → String) :
    ∀ l : List Tok, mergeOnce combine CFG l = none → hasGood l = true →
      l.any goodTok = true
  | [], _, hg => by simp [hasGood] at hg
  | [t], _, hg => by simpa using hg
  | t1 :: t2 :: rest, hn, hg => by
    obtain ⟨hv, hr⟩ := mergeOnce_none_parts combine CFG t1 t2 rest hn
    rw [hasGood_cons2, Bool.or_eq_true, Bool.or_eq_true] at hg
    rw [List.any_cons, Bool.or_eq_true]
    rcases hg with (hg1 | hg1) | hg1
    · exact Or.inl hg1
    · rw [goodPair_mergeValue t1 t2 hg1] at hv
      cases hv
    · exact Or.inr (hasGood_fixpoint_any combine (t2 :: rest) hr hg1)

/-- The merge loop preserves `hasGood` in both directions. -/
theorem mergeLoopAux_hasGood (combine : String → String → String) :
    ∀ (fuel : Nat) (l : List Tok),
      hasGood (mergeLoopAux combine CFG fuel l) = hasGood l
  | 0, l => rfl
  | fuel + 1, l => by
    rw [mergeLoopAux_succ]
    cases h : mergeOnce combine CFG l with
    | some l2 =>
      show hasGood (mergeLoopAux combine CFG fuel l2) = hasGood l
      rw [mergeLoopAux_hasGood combine fuel l2]
      cases hg : hasGood l with
      | true => exact mergeOnce_preserves_hasGood combine l l2 h hg
      | false => exact mergeOnce_preserves_not_hasGood combine l l2 h hg
    | none => rfl

/-- The membership test of the merge engine coincides with the static
characterization `hasGood` at the concrete CFG. -/
theorem is_match_iff_hasGood (l : List Tok) :
    is_match l CFG = true ↔ hasGood l = true := by
  have hmatch : is_match l CFG =
      (mergeLoopAux matchCombine CFG l.length l).any goodTok := rfl
  have hloop := mergeLoopAux_hasGood matchCombine l.length l
  constructor
  · intro h
    rw [hmatch] at h
    rw [← hloop]
    exact any_goodTok_hasGood _ h
  · intro hg
    rw [hmatch]
    refine hasGood_fixpoint_any matchCombine _ ?_ ?_
    · exact mergeLoop_fixpoint matchCombine CFG l
    · rw [hloop]
      exact hg

/-- The four tags a static witness can involve all survive the default
insignificance filter and are fixed points of tag normalization. -/
theorem core_tag_stable (s : String)
    (h : s = "NNP" ∨ s = "NNI" ∨ s = "NN" ∨ s = "JJ") :
    significant INSIGNIFICANT_SUFFIXES s = true ∧ normTag s = s := by
  rcases h with h | h | h | h <;> subst h <;> exact ⟨by decide, by decide⟩

/-- Filtering with the default suffixes and normalizing preserves the static
witness: its tokens survive unchanged and stay adjacent. -/
theorem processed_hasGood :
    ∀ l : List Tok, hasGood l = true →
      hasGood (normalize_tags
        (filter_insignificant l INSIGNIFICANT_SUFFIXES)) = true
  | [], hg => by simp [hasGood] at hg
  | [t], hg => by
    have ht : t.2 = "NNP" ∨ t.2 = "NNI" := by
      simpa [hasGood, goodTok, nounTag] using hg
    obtain ⟨hs, hn⟩ := core_tag_stable t.2 (by tauto)
    simp [filter_insignificant, normalize_tags, List.filter_cons, hs,
      hasGood, goodTok, nounTag, hn]
    simpa [hasGood, goodTok, nounTag] using hg
  | t1 :: t2 :: rest, hg => by
    rw [hasGood_cons2, Bool.or_eq_true, Bool.or_eq_true] at hg
    rcases hg with (hg1 | hg1) | hg1
    · have ht : t1.2 = "NNP" ∨ t1.2 = "NNI" := by
        simpa [goodTok, nounTag] using hg1
      obtain ⟨hs, hn⟩ := core_tag_stable t1.2 (by tauto)
      rw [show filter_insignificant (t1 :: t2 :: rest) INSIGNIFICANT_SUFFIXES =
          t1 :: filter_insignificant (t2 :: rest) INSIGNIFICANT_SUFFIXES from by
        simp [filter_insignificant, List.filter_cons, hs]]
      rw [show normalize_tags (t1 :: filter_insignificant (t2 :: rest)
          INSIGNIFICANT_SUFFIXES) = (t1.1, normTag t1.2) ::
          normalize_tags (filter_insignificant (t2 :: rest)
            INSIGNIFICANT_SUFFIXES) from rfl]
      exact hasGood_head _ _ (by simp [goodTok, nounTag, hn]; simpa [goodTok, nounTag] using hg1)
    · have hp : (t1.2 = "NN" ∧ t2.2 = "NN") ∨ (t1.2 = "JJ" ∧ t2.2 = "NN") := by
        simpa [goodPair, Bool.or_eq_true, Bool.and_eq_true, beq_iff_eq] using hg1
      have ht1 : t1.2 = "NN" ∨ t1.2 = "JJ" := by tauto
      have ht2 : t2.2 = "NN" := by tauto
      obtain ⟨hs1, hn1⟩ := core_tag_stable t1.2 (by tauto)
      obtain ⟨hs2, hn2⟩ := core_tag_stable t2.2 (by tauto)
      rw [show filter_insignificant (t1 :: t2 :: rest) INSIGNIFICANT_SUFFIXES =
          t1 :: t2 :: filter_insignificant rest INSIGNIFICANT_SUFFIXES from by
        simp [filter_insignificant, List.filter_cons, hs1, hs2]]
      rw [show normalize_tags (t1 :: t2 ::
          filter_insignificant rest INSIGNIFICANT_SUFFIXES) =
          (t1.1, normTag t1.2) :: (t2.1, normTag t2.2) ::
          normalize_tags (filter_insignificant rest INSIGNIFICANT_SUFFIXES)
          from rfl]
      rw [hasGood_cons2, hn1, hn2]
      have hgp : goodPair (t1.1, t1.2) (t2.1, t2.2) = true := by
        simpa [goodPair] using hg1
      simp [hgp]
    · have ih := processed_hasGood (t2 :: rest) hg1
      cases hs : significant INSIGNIFICANT_SUFFIXES t1.2 with
      | true =>
        rw [show filter_insignificant (t1 :: t2 :: rest)
            INSIGNIFICANT_SUFFIXES = t1 :: filter_insignificant (t2 :: rest)
            INSIGNIFICANT_SUFFIXES from by
          simp [filter_insignificant, List.filter_cons, hs]]
        exact hasGood_tail _ _ ih
      | false =>
        rw [show filter_insignificant (t1 :: t2 :: rest)
            INSIGNIFICANT_SUFFIXES = filter_insignificant (t2 :: rest)
            INSIGNIFICANT_SUFFIXES from by
          simp [filter_insignificant, List.filter_cons, hs]]
        exact ih

/-! ### Claim theorems -/

/-- C1: In the `FastNPExtractor.extract` merge loop, while some adjacent pair
`(i, i+1)` has a tag pair that is a key of the CFG, the leftmost such pair is
removed and replaced by a single element at position `i` whose tag is the CFG
value for that key and whose text is the first element's text, a single space,
then the second element's text; after the merge the loop rescans the merged
sequence from index 0, and it stops exactly when one full left-to-right scan
finds no pair whose tag pair is a CFG key. -/
theorem fast_merge_leftmost_restart (l : List Tok) (i : Nat)
    (hi : i + 1 < l.length) (v : String)
    (hkey : List.lookup ((l.get ⟨i, Nat.lt_of_succ_lt hi⟩).2,
      (l.get ⟨i + 1, hi⟩).2) CFG = some v)
    (hmin : ∀ j, (hj : j + 1 < l.length) → j < i →
      List.lookup ((l.get ⟨j, Nat.lt_of_succ_lt hj⟩).2,
        (l.get ⟨j + 1, hj⟩).2) CFG = none) :
    mergeOnce extractCombine CFG l =
      some (l.take i ++
        ((l.get ⟨i, Nat.lt_of_succ_lt hi⟩).1 ++ " " ++ (l.get ⟨i + 1, hi⟩).1, v) ::
          l.drop (i + 2))
    ∧ mergeLoop extractCombine CFG l =
      mergeLoop extractCombine CFG (l.take i ++
        ((l.get ⟨i, Nat.lt_of_succ_lt hi⟩).1 ++ " " ++ (l.get ⟨i + 1, hi⟩).1, v) ::
          l.drop (i + 2))
    ∧ ∀ l2 : List Tok,
        (mergeOnce extractCombine CFG l2 = none ↔
          ∀ j, (hj : j + 1 < l2.length) →
            List.lookup ((l2.get ⟨j, Nat.lt_of_succ_lt hj⟩).2,
              (l2.get ⟨j + 1, hj⟩).2) CFG = none)
        ∧ (mergeOnce extractCombine CFG l2 = none →
            mergeLoop extractCombine CFG l2 = l2) := by
  have hv : mergeValue CFG (l.get ⟨i, Nat.lt_of_succ_lt hi⟩)
      (l.get ⟨i + 1, hi⟩) = some v := by
    rw [mergeValue_CFG_eq_lookup]
    exact hkey
  have hmin2 : ∀ j, (hj : j + 1 < l.length) → j < i →
      mergeValue CFG (l.get ⟨j, Nat.lt_of_succ_lt hj⟩)
        (l.get ⟨j + 1, hj⟩) = none := by
    intro j hj hji
    rw [mergeValue_CFG_eq_lookup]
    exact hmin j hj hji
  have h1 := mergeOnce_leftmost extractCombine CFG l i hi v hv hmin2
  refine ⟨h1, mergeLoop_merge _ _ _ _ h1, ?_⟩
  intro l2
  refine ⟨?_, mergeLoop_of_none _ _ _⟩
  rw [mergeOnce_eq_none_iff]
  constructor
  · intro hn j hj
    rw [← mergeValue_CFG_eq_lookup]
    exact hn j hj
  · intro hn j hj
    rw [mergeValue_CFG_eq_lookup]
    exact hn j hj

theorem fast_merge_leftmost_restart_witness :
    mergeOnce extractCombine CFG [("New", "NNP"), ("York", "NNP"), ("City", "NN")] =
      some [("New York", "NNP"), ("City", "NN")] :=
  ((fast_merge_leftmost_restart [("New", "NNP"), ("York", "NNP"), ("City", "NN")]
      0 (by decide) "NNP" (by decide)
      (fun j hj hji => absurd hji (Nat.not_lt_zero j))).1).trans (by decide)

/-- C2, counterexample: the tag pair `("NNP", "NN")` is not a CFG key, so the
merge engine does not converge to a single `("New York City", "NNP")` element
on this input. -/
theorem fast_merge_nyc_not_single :
    mergeLoop extractCombine CFG [("New", "NNP"), ("York", "NNP"), ("City", "NN")] ≠
      [("New York City", "NNP")] := by decide

/-- C2, amended: with the default CFG, the sequence tagged `[NNP, NNP, NN]`
converges to two elements — `"New"` and `"York"` merge into
`("New York", "NNP")`, while `("City", "NN")` is left unmerged because
`("NNP", "NN")` is not a CFG key — and collection mode then returns only
`"New York"`. -/
theorem fast_merge_nyc :
    mergeLoop extractCombine CFG [("New", "NNP"), ("York", "NNP"), ("City", "NN")] =
      [("New York", "NNP"), ("City", "NN")]
    ∧ fastExtract [("New", "NNP"), ("York", "NNP"), ("City", "NN")] = ["New York"] := by
  decide

/-- C3: for every finite input the merge loop (shared by
`FastNPExtractor.extract` with `combine = extractCombine` and by `is_match`
with `combine = matchCombine`) terminates: every merge step shortens the
sequence by exactly one element, at most `n - 1` merge steps happen for an
`n`-token input, a nonempty input never shrinks below one element, and the
converged sequence admits no further merge. -/
theorem merge_loop_terminates (combine : String → String → String)
    (cfg : List ((String × String) × String)) (l : List Tok) :
    (∀ l2, mergeOnce combine cfg l = some l2 → l.length = l2.length + 1)
    ∧ loopSteps combine cfg l ≤ l.length - 1
    ∧ (l ≠ [] → 1 ≤ (mergeLoop combine cfg l).length)
    ∧ mergeOnce combine cfg (mergeLoop combine cfg l) = none := by
  refine ⟨fun l2 h => mergeOnce_length combine cfg l l2 h,
    loopStepsAux_le combine cfg l.length l, fun hne => ?_,
    mergeLoop_fixpoint combine cfg l⟩
  have hnil := mergeLoopAux_ne_nil combine cfg l.length l hne
  cases hres : mergeLoop combine cfg l with
  | nil => exact absurd hres hnil
  | cons a tl => simp

theorem merge_loop_terminates_witness :
    loopSteps matchCombine CFG [("black", "JJ"), ("cat", "NN")] ≤ 1
    ∧ 1 ≤ (mergeLoop matchCombine CFG [("black", "JJ"), ("cat", "NN")]).length :=
  ⟨(merge_loop_terminates matchCombine CFG [("black", "JJ"), ("cat", "NN")]).2.1,
   (merge_loop_terminates matchCombine CFG [("black", "JJ"), ("cat", "NN")]).2.2.1
     (by decide)⟩

/-- C5: every merge step of the `is_match` variant inserts an element whose
text is the FIRST token's text, a space, then the first token's text again
(not the two distinct texts), while the inserted tag is still the CFG value
for the pair; and the final result of `is_match` is whether some converged
element's tag is `NNP` or `NNI`. -/
theorem is_match_duplicates_first_text
    (cfg : List ((String × String) × String)) (l : List Tok) (i : Nat)
    (hi : i + 1 < l.length) (v : String)
    (hv : mergeValue cfg (l.get ⟨i, Nat.lt_of_succ_lt hi⟩)
      (l.get ⟨i + 1, hi⟩) = some v)
    (hmin : ∀ j, (hj : j + 1 < l.length) → j < i →
      mergeValue cfg (l.get ⟨j, Nat.lt_of_succ_lt hj⟩)
        (l.get ⟨j + 1, hj⟩) = none) :
    mergeOnce matchCombine cfg l =
      some (l.take i ++
        ((l.get ⟨i, Nat.lt_of_succ_lt hi⟩).1 ++ " " ++
          (l.get ⟨i, Nat.lt_of_succ_lt hi⟩).1, v) :: l.drop (i + 2))
    ∧ (is_match l cfg = true ↔
        ∃ t ∈ mergeLoop matchCombine cfg l, t.2 = "NNP" ∨ t.2 = "NNI") := by
  refine ⟨mergeOnce_leftmost matchCombine cfg l i hi v hv hmin, ?_⟩
  simp only [is_match, List.any_eq_true, nounTag, Bool.or_eq_true, beq_iff_eq]

theorem is_match_duplicates_first_text_witness :
    mergeOnce matchCombine CFG [("beautiful", "JJ"), ("new", "JJ")] =
      some [("beautiful beautiful", "JJ")] :=
  ((is_match_duplicates_first_text CFG [("beautiful", "JJ"), ("new", "JJ")] 0
      (by decide) "JJ" (by decide)
      (fun j hj hji => absurd hji (Nat.not_lt_zero j))).1).trans (by decide)

/-- C4: a top-level `NP` subtree is retained only if, after filtering the
insignificant tokens and normalizing the survivors' tags, at least one token
survives and the merge-engine membership test holds over those surviving,
normalized tokens — i.e. the code's retention condition `conllKeep` (which
runs `is_match` on the raw leaves) implies the spec's condition
`conllKeepSpec`: the raw-leaves membership test can only succeed through an
`NNP`/`NNI` token or an `(NN, NN)` / `(JJ, NN)` adjacency, all of which
survive filtering unchanged, stay adjacent, and are normalization fixed
points. -/
theorem conll_retention_only_if (each : Subtree) (h : conllKeep each = true) :
    each.node = "NP"
    ∧ 1 ≤ (normalize_tags
        (filter_insignificant each.leaves INSIGNIFICANT_SUFFIXES)).length
    ∧ is_match (normalize_tags
        (filter_insignificant each.leaves INSIGNIFICANT_SUFFIXES)) CFG = true
    ∧ conllKeepSpec each = true := by
  simp only [conllKeep, Bool.and_eq_true, beq_iff_eq, decide_eq_true_eq] at h
  obtain ⟨⟨hnode, hlen⟩, hmatch⟩ := h
  have hlen2 : 1 ≤ (normalize_tags
      (filter_insignificant each.leaves INSIGNIFICANT_SUFFIXES)).length := by
    simpa [normalize_tags] using hlen
  have hg := (is_match_iff_hasGood each.leaves).mp hmatch
  have hg2 := processed_hasGood each.leaves hg
  have hmatch2 := (is_match_iff_hasGood _).mpr hg2
  refine ⟨hnode, hlen2, hmatch2, ?_⟩
  simp only [conllKeepSpec, Bool.and_eq_true, beq_iff_eq, decide_eq_true_eq]
  exact ⟨⟨hnode, hlen2⟩, hmatch2⟩

theorem conll_retention_only_if_witness :
    conllKeepSpec ⟨"NP", [("dashboard", "NN"), ("light", "NN")]⟩ = true :=
  (conll_retention_only_if ⟨"NP", [("dashboard", "NN"), ("light", "NN")]⟩
    (by decide)).2.2.2

/-- C6, counterexample: normalization is not idempotent.  The Brown plural
proper-noun tag `NPS` first loses its trailing `S`, giving `NP`; a second
application rewrites `NP` to `NNP`. -/
theorem normalize_tags_not_idempotent :
    normalize_tags (normalize_tags [("Andes", "NPS")]) ≠
      normalize_tags [("Andes", "NPS")] := by decide

/-- One normalized tag that is none of the special cases is left unchanged. -/
theorem normTag_fixed (t : String) (h1 : t ≠ "NP") (h2 : t ≠ "NP-TL")
    (h3 : strEndsWith t "-TL" = false) (h4 : strEndsWith t "S" = false) :
    normTag t = t := by
  unfold normTag
  rw [if_neg (by simp [h1, h2]), if_neg (by simp [h3]), if_neg (by simp [h4])]

/-- C6, amended: applying `normalize_tags` twice equals applying it once for
every sequence in which no tag's single normalization yields `NP`, `NP-TL`, a
tag ending in `-TL`, or a tag ending in `S`; without that restriction
idempotence fails (e.g. on the tag `NPS`). -/
theorem normalize_tags_idempotent_on_stable (chunk : List Tok)
    (h : ∀ wt ∈ chunk, normTag wt.2 ≠ "NP" ∧ normTag wt.2 ≠ "NP-TL" ∧
      strEndsWith (normTag wt.2) "-TL" = false ∧
      strEndsWith (normTag wt.2) "S" = false) :
    normalize_tags (normalize_tags chunk) = normalize_tags chunk := by
  unfold normalize_tags
  rw [List.map_map]
  apply List.map_congr_left
  intro wt hwt
  obtain ⟨h1, h2, h3, h4⟩ := h wt hwt
  simp only [Function.comp_apply]
  rw [normTag_fixed (normTag wt.2) h1 h2 h3 h4]

theorem normalize_tags_idempotent_on_stable_witness :
    normalize_tags (normalize_tags [("dogs", "NNS")]) =
      normalize_tags [("dogs", "NNS")] :=
  normalize_tags_idempotent_on_stable [("dogs", "NNS")] (by decide)

/-- C7: `filter_insignificant` returns an order-preserving subsequence of its
input (no insertion, reordering, or modification), and every retained
element's tag ends with none of the configured suffixes. -/
theorem filter_insignificant_subsequence (chunk : List Tok)
    (sfx : List String) :
    (filter_insignificant chunk sfx).Sublist chunk
    ∧ ∀ wt ∈ filter_insignificant chunk sfx, ∀ s ∈ sfx,
        strEndsWith wt.2 s = false ∧ ¬ List.IsSuffix s.data wt.2.data := by
  refine ⟨List.filter_sublist chunk, ?_⟩
  intro wt hwt s hs
  rw [filter_insignificant, List.mem_filter] at hwt
  have hsig := hwt.2
  rw [significant, List.all_eq_true] at hsig
  have h2 := hsig s hs
  simp only [Bool.not_eq_true'] at h2
  refine ⟨h2, ?_⟩
  rw [← List.isSuffixOf_iff_suffix]
  simp [strEndsWith] at h2
  simp [h2]

theorem filter_insignificant_subsequence_witness :
    (filter_insignificant [("the", "DT"), ("cat", "NN")]
      INSIGNIFICANT_SUFFIXES).Sublist [("the", "DT"), ("cat", "NN")] :=
  (filter_insignificant_subsequence [("the", "DT"), ("cat", "NN")]
    INSIGNIFICANT_SUFFIXES).1

/-- C8: when the external corpus lookup fails with `LookupError`, both
training steps raise `MissingCorpusException` carrying the fixed remediation
message, and neither training step ever lets the raw `LookupError` escape. -/
theorem train_translates_lookup_failure {α : Type} (c : Except PyError α)
    (h : c = Except.error PyError.lookupError) :
    ChunkParser.train c =
      Except.error (PyError.missingCorpusException MISSING_CORPUS_MESSAGE)
    ∧ FastNPExtractor.train c =
      Except.error (PyError.missingCorpusException MISSING_CORPUS_MESSAGE)
    ∧ ∀ c2 : Except PyError α,
        ChunkParser.train c2 ≠ Except.error PyError.lookupError
        ∧ FastNPExtractor.train c2 ≠ Except.error PyError.lookupError := by
  subst h
  refine ⟨rfl, rfl, ?_⟩
  intro c2
  constructor <;>
    · cases c2 with
      | ok d => simp [ChunkParser.train, FastNPExtractor.train]
      | error e =>
        cases e <;> simp [ChunkParser.train, FastNPExtractor.train]

theorem train_translates_lookup_failure_witness :
    ChunkParser.train (Except.error PyError.lookupError : Except PyError Unit) =
      Except.error (PyError.missingCorpusException MISSING_CORPUS_MESSAGE) :=
  (train_translates_lookup_failure
    (Except.error PyError.lookupError : Except PyError Unit) rfl).1

/-- C9: invoking `extract` on the abstract base extractor always fails with a
`NotImplementedError` (under the Python 2 tuple-raise semantics the module
runs with, `raise(NotImplementedError, '...')` raises the class named by the
tuple's first element). -/
theorem base_extract_raises_not_implemented (text : String) :
    BaseNPExtractor.extract text = Except.error PyError.notImplementedError :=
  rfl

/-- C10: `is_match` never mutates its argument.  On the explicit heap, the
caller's list reads back element-for-element unchanged after the call (all
merging happens behind the freshly allocated `copy` reference), every other
live reference is untouched as well, and the returned boolean agrees with the
pure merge-engine membership test on the passed list. -/
theorem is_match_does_not_mutate (cfg : List ((String × String) × String))
    (h : Heap) (r : Nat) :
    heapRead (is_matchH cfg h r).1 r = heapRead h r
    ∧ (is_matchH cfg h r).2 = is_match (heapRead h r) cfg
    ∧ ∀ r2, r2 < h.length →
        heapRead (is_matchH cfg h r).1 r2 = heapRead h r2 := by
  have hfst : (is_matchH cfg h r).1 =
      isMatchLoopH cfg (heapRead (h ++ [heapRead h r]) h.length).length
        (h ++ [heapRead h r]) h.length := rfl
  have hsnd : (is_matchH cfg h r).2 =
      (heapRead (isMatchLoopH cfg
          (heapRead (h ++ [heapRead h r]) h.length).length
          (h ++ [heapRead h r]) h.length) h.length).any
        (fun t => nounTag t.2) := rfl
  have hnew : heapRead (h ++ [heapRead h r]) h.length = heapRead h r :=
    heapRead_heapAlloc_new h (heapRead h r)
  have hc_lt : h.length < (h ++ [heapRead h r]).length := by simp
  have hread : heapRead (isMatchLoopH cfg
      (heapRead (h ++ [heapRead h r]) h.length).length
      (h ++ [heapRead h r]) h.length) h.length =
      mergeLoop matchCombine cfg (heapRead h r) := by
    rw [isMatchLoopH_read cfg _ _ _ hc_lt, hnew]
    rfl
  have h3 : ∀ r2, r2 < h.length →
      heapRead (is_matchH cfg h r).1 r2 = heapRead h r2 := by
    intro r2 hr2
    rw [hfst, isMatchLoopH_frame cfg _ _ _ r2 (by omega),
      heapRead_heapAlloc_old h (heapRead h r) r2 hr2]
  refine ⟨?_, ?_, h3⟩
  · by_cases hr : r < h.length
    · exact h3 r hr
    · push_neg at hr
      have hout : heapRead h r = [] := heapRead_out h r hr
      by_cases hrc : r = h.length
      · subst hrc
        rw [hfst, hread, hout]
        rfl
      · have hrgt : h.length < r := by omega
        rw [hfst, isMatchLoopH_frame cfg _ _ _ r hrc,
          heapRead_out (h ++ [heapRead h r]) r (by simp; omega), hout]
  · rw [hsnd, hread]
    rfl

theorem is_match_does_not_mutate_witness :
    heapRead (is_matchH CFG [[("cat", "NN")]] 0).1 0 =
      heapRead [[("cat", "NN")]] 0 :=
  (is_match_does_not_mutate CFG [[("cat", "NN")]] 0).2.2 0 (by decide)

end TextBlob
